import Mathlib

/-!
Verification of the chart-maker repository's core logic against its
natural-language specification.

The development shallowly embeds the TypeScript sources:
  * `src/utils/csvParser.ts` (`parseCSV`) — the CSV heuristic parser;
  * `src/types.ts` (`generateScale`) — the color palette generator,
    together with the d3-color / d3-scale primitives it delegates to,
    modelled over ℚ from their exact rational semantics;
  * `src/unnamed/part_000` (`BubbleChart`) — the label-fitting font-size
    heuristic and the greedy word-wrap, modelled over ℝ, and the bubble
    layout contract (d3.pack is an external library; its contract is
    modelled from the spec, §4.3).

JavaScript numbers are idealised as exact rationals (ℚ) where the code
performs only field arithmetic and comparisons, and as reals (ℝ) where
`Math.sqrt` is involved.  JavaScript `NaN` outcomes are represented by
`Option` (`none` = NaN), and fallible array indexing by `Option`-valued
access.
-/

/- ### Section 1: string primitives used by the parser

JS `String.prototype.split(sep)` with a one-character separator,
`trim`, and `replace('%','')` (which replaces only the first
occurrence), over `List Char`. -/

/-- Split a character list at every occurrence of `sep`.
Mirrors JS `s.split(sep)` for a single-character separator:
`splitChar ',' "" = [""]`, separators at the ends produce empty fields. -/
def splitChar (sep : Char) : List Char → List (List Char)
  | [] => [[]]
  | c :: t =>
    if c = sep then [] :: splitChar sep t
    else
      match splitChar sep t with
      | [] => [[c]]
      | x :: xs => (c :: x) :: xs

/-- JS `String.prototype.trim`: drop whitespace from both ends. -/
def trimChars (cs : List Char) : List Char :=
  ((cs.dropWhile Char.isWhitespace).reverse.dropWhile Char.isWhitespace).reverse

/-- JS `s.replace('%', '')`: remove the first `'%'` only. -/
def stripFirstPct : List Char → List Char
  | [] => []
  | c :: t => if c = '%' then t else c :: stripFirstPct t

/-- Numeric value of a list of decimal digit characters. -/
def digitsVal (ds : List Char) : ℕ :=
  ds.foldl (fun a c => 10 * a + (c.toNat - 48)) 0

/-- JS `parseFloat` on a character list, idealised over ℚ.
Skips leading whitespace, reads an optional sign, a decimal literal
(`123`, `1.5`, `.5`, `5.`) and an optional exponent, and ignores any
trailing garbage; returns `none` exactly when JS would return `NaN`
(no digit could be consumed).  The special literal `Infinity`, which
JS accepts, has no rational value and is not modelled; no input in
this repository exercises it. -/
def jsParseFloatCore (cs0 : List Char) : Option ℚ :=
  let cs1 := cs0.dropWhile Char.isWhitespace
  let sgn : ℚ := match cs1 with
    | '-' :: _ => -1
    | _ => 1
  let cs2 := match cs1 with
    | '-' :: t => t
    | '+' :: t => t
    | t => t
  let ip := cs2.takeWhile Char.isDigit
  let rest := cs2.dropWhile Char.isDigit
  let fp := match rest with
    | '.' :: t => t.takeWhile Char.isDigit
    | _ => []
  let rest2 := match rest with
    | '.' :: t => t.dropWhile Char.isDigit
    | t => t
  if ip.isEmpty ∧ fp.isEmpty then none
  else
    let mant : ℚ := (digitsVal ip : ℚ) + (digitsVal fp : ℚ) / (10 ^ fp.length)
    let expv : ℤ := match rest2 with
      | e :: t =>
        if e = 'e' ∨ e = 'E' then
          let esgn : ℤ := match t with
            | '-' :: _ => -1
            | _ => 1
          let t2 := match t with
            | '-' :: u => u
            | '+' :: u => u
            | u => u
          let eds := t2.takeWhile Char.isDigit
          if eds.isEmpty then 0 else esgn * (digitsVal eds : ℤ)
        else 0
      | [] => 0
    some (sgn * (mant * (10 : ℚ) ^ expv))

/-- JS `parseFloat` on a string. -/
def jsParseFloat (s : String) : Option ℚ := jsParseFloatCore s.toList

/- ### Section 2: the CSV heuristic parser (`src/utils/csvParser.ts`) -/

/-- Structure `DataPoint` from `src/types.ts`; metric values idealised as ℚ. -/
structure DataPoint where
  category : String
  metric1 : ℚ
  metric2 : ℚ
deriving DecidableEq, Repr

/-- Structure `ChartData` from `src/types.ts`. -/
structure ChartData where
  title1 : String
  title2 : String
  data : List DataPoint
deriving DecidableEq, Repr

/-- The empty-input result of `parseCSV`. -/
def defaultChart : ChartData := ⟨"Metric 1", "Metric 2", []⟩

/-- Line preparation of `parseCSV`:
`csv.split('\n').map(l => l.trim()).filter(l => l.length > 0)`. -/
def linesOf (csv : String) : List (List Char) :=
  ((splitChar '\n' csv.toList).map trimChars).filter (fun l => l ≠ [])

/-- Header qualification test for line `i` of `parseCSV`'s header scan:
the line splits on comma into at least 3 fields and the second field,
trimmed and with the first `'%'` removed, does not parse as a number. -/
def QualifiesAt (lines : List (List Char)) (i : ℕ) : Prop :=
  let parts := splitChar ',' (lines.getD i [])
  3 ≤ parts.length ∧
    jsParseFloatCore (stripFirstPct (trimChars (parts.getD 1 []))) = none

instance (lines : List (List Char)) (i : ℕ) : Decidable (QualifiesAt lines i) := by
  unfold QualifiesAt; exact inferInstance

/-- Header-scan loop of `parseCSV`
(`for (let i = 0; i < Math.min(lines.length, 5); i++) ... break`),
written with explicit fuel; `fuel = 5` covers the whole scan. -/
def headerIndexGo (lines : List (List Char)) : ℕ → ℕ → ℕ
  | 0, _ => 0
  | fuel + 1, i =>
    if i < min lines.length 5 then
      if QualifiesAt lines i then i else headerIndexGo lines fuel (i + 1)
    else 0

/-- Index of the header row chosen by `parseCSV` (0 when no line of the
first five qualifies). -/
def headerIndex (lines : List (List Char)) : ℕ := headerIndexGo lines 5 0

/-- JS `headerRow[k] || defaultTitle`: missing or empty field falls back. -/
def jsOrDefault (o : Option (List Char)) (d : String) : String :=
  match o with
  | none => d
  | some cs => if cs = [] then d else String.mk cs

/-- Field extraction of `parseCSV`'s data loop for one (already trimmed)
line: split on comma, trim each field, and shift one column right when
field 0 is empty and the row has more than 3 fields (the legacy
leading-comma format). Returns `(category, val1Str?, val2Str?)`,
with `none` standing for a JS `undefined` field. -/
def rowFields (line : List Char) : List Char × Option (List Char) × Option (List Char) :=
  let cleanRow := (splitChar ',' line).map trimChars
  if cleanRow.getD 0 [] = [] ∧ 3 < cleanRow.length then
    (cleanRow.getD 1 [], cleanRow.get? 2, cleanRow.get? 3)
  else
    (cleanRow.getD 0 [], cleanRow.get? 1, cleanRow.get? 2)

/-- JS `valStr?.replace('%','') || '0'`: a missing field, or a field that
is empty after percent-stripping, is replaced by the literal `"0"`. -/
def metricChars (o : Option (List Char)) : List Char :=
  match o with
  | none => ['0']
  | some cs =>
    let cs' := stripFirstPct cs
    if cs' = [] then ['0'] else cs'

/-- Body of `parseCSV`'s data loop for one line: skip when the category
is empty, otherwise keep the row iff both defaulted metric strings
parse as numbers. -/
def processRow (line : List Char) : Option DataPoint :=
  let f := rowFields line
  if f.1 = [] then none
  else
    match jsParseFloatCore (metricChars f.2.1), jsParseFloatCore (metricChars f.2.2) with
    | some a, some b => some ⟨String.mk f.1, a, b⟩
    | _, _ => none

/-- Function `parseCSV` with the single fallible step made explicit: the header
row is read with a checked index (`lines[headerIndex]` would throw in
JS if the index were out of bounds; `none` models that path). -/
def parseCSVE (csv : String) : Option ChartData :=
  let lines := linesOf csv
  if lines.length = 0 then some defaultChart
  else
    match lines.get? (headerIndex lines) with
    | none => none
    | some hline =>
      let headerRow := (splitChar ',' hline).map trimChars
      let title1 := jsOrDefault (headerRow.get? 1) "Metric 1"
      let title2 := jsOrDefault (headerRow.get? 2) "Metric 2"
      let data := (lines.drop (headerIndex lines + 1)).filterMap processRow
      some ⟨title1, title2, data⟩

/-- Function `parseCSV` from `src/utils/csvParser.ts` as a total function. -/
def parseCSV (csv : String) : ChartData := (parseCSVE csv).getD defaultChart

/- ### Section 3: theorems about the CSV parser -/

section CsvTheorems

attribute [local semireducible] Rat.add Rat.mul Rat.inv Rat.sub Rat.ofScientific

/-- Characterisation of the header-scan loop: starting at `i` with enough
fuel, it returns the first qualifying index in `[i, min len 5)`, or `0`
when none qualifies. -/
theorem headerIndexGo_spec (lines : List (List Char)) :
    ∀ (fuel i : ℕ), min lines.length 5 ≤ i + fuel →
      (∃ j, i ≤ j ∧ j < min lines.length 5 ∧ QualifiesAt lines j ∧
        (∀ k, i ≤ k → k < j → ¬QualifiesAt lines k) ∧ headerIndexGo lines fuel i = j) ∨
      ((∀ j, i ≤ j → j < min lines.length 5 → ¬QualifiesAt lines j) ∧
        headerIndexGo lines fuel i = 0) := by
  intro fuel
  induction fuel with
  | zero =>
    intro i hle
    right
    refine ⟨fun j hij hj => ?_, rfl⟩
    intro _
    omega
  | succ fuel ih =>
    intro i hle
    by_cases hi : i < min lines.length 5
    · by_cases hq : QualifiesAt lines i
      · left
        exact ⟨i, le_refl i, hi, hq, fun k h1 h2 => absurd (lt_of_le_of_lt h1 h2) (lt_irrefl i),
          by simp [headerIndexGo, hi, hq]⟩
      · have hle' : min lines.length 5 ≤ (i + 1) + fuel := by omega
        rcases ih (i + 1) hle' with ⟨j, h1, h2, h3, h4, h5⟩ | ⟨h1, h2⟩
        · left
          refine ⟨j, by omega, h2, h3, ?_, by simp [headerIndexGo, hi, hq, h5]⟩
          intro k hk1 hk2
          rcases Nat.eq_or_lt_of_le hk1 with rfl | hk1'
          · exact hq
          · exact h4 k hk1' hk2
        · right
          refine ⟨?_, by simp [headerIndexGo, hi, hq, h2]⟩
          intro j hj1 hj2
          rcases Nat.eq_or_lt_of_le hj1 with rfl | hj1'
          · exact hq
          · exact h1 j hj1' hj2
    · right
      refine ⟨fun j hij hj => fun _ => hi (lt_of_le_of_lt hij hj), ?_⟩
      simp [headerIndexGo, hi]

/-- The header index chosen by the scan is always a valid index into the
(non-empty) line list. -/
theorem headerIndex_lt_length (lines : List (List Char)) (h : lines ≠ []) :
    headerIndex lines < lines.length := by
  have hspec := headerIndexGo_spec lines 5 0 (by omega)
  rcases hspec with ⟨j, _, h2, _, _, h5⟩ | ⟨_, h2⟩
  · unfold headerIndex
    rw [h5]
    exact lt_of_lt_of_le h2 (min_le_left _ _)
  · unfold headerIndex
    rw [h2]
    exact List.length_pos.mpr h

/-- C4: `parseCSV` selects as header the first of the first five lines
that splits on comma into at least 3 fields and whose second field (with
the percent sign stripped) does not parse as a number; if no line among
the first five qualifies, line 0 is treated as the header. -/
theorem headerIndex_first_qualifying (csv : String) :
    (∃ i, i < min (linesOf csv).length 5 ∧ QualifiesAt (linesOf csv) i ∧
      (∀ j, j < i → ¬QualifiesAt (linesOf csv) j) ∧ headerIndex (linesOf csv) = i) ∨
    ((∀ i, i < min (linesOf csv).length 5 → ¬QualifiesAt (linesOf csv) i) ∧
      headerIndex (linesOf csv) = 0) := by
  have hspec := headerIndexGo_spec (linesOf csv) 5 0 (by omega)
  rcases hspec with ⟨j, _, h2, h3, h4, h5⟩ | ⟨h1, h2⟩
  · exact Or.inl ⟨j, h2, h3, fun k hk => h4 k (Nat.zero_le k) hk, h5⟩
  · exact Or.inr ⟨fun i hi => h1 i (Nat.zero_le i) hi, h2⟩

/-- C5: `parseCSV` is total — for every input string the parse reaches a
`ChartData` result; in particular the one fallible step (indexing the
chosen header line) always succeeds, so no failure path throws. -/
theorem parseCSVE_total (csv : String) : (parseCSVE csv).isSome = true := by
  unfold parseCSVE
  by_cases h : (linesOf csv).length = 0
  · simp [h]
  · have hne : linesOf csv ≠ [] := by
      intro hnil
      exact h (by simp [hnil])
    have hlt := headerIndex_lt_length (linesOf csv) hne
    have hget : (linesOf csv)[headerIndex (linesOf csv)]? =
        some ((linesOf csv)[headerIndex (linesOf csv)]) :=
      List.getElem?_eq_getElem hlt
    simp [h, hget]

/-- C1 counterexample: on the legacy two-line input the parser does NOT
return the two rows X and Y; the first line is consumed as the header
(its second field `"X"` is not numeric), leaving a single data row. -/
theorem parseCSV_legacy_counterexample :
    (parseCSV ",X,10,20\n,Y,5,15").data ≠
      [⟨"X", 10, 20⟩, ⟨"Y", 5, 15⟩] ∧
    parseCSV ",X,10,20\n,Y,5,15" = ⟨"X", "10", [⟨"Y", 5, 15⟩]⟩ := by
  decide

/-- C1 amended: `parseCSV ",X,10,20\n,Y,5,15"` treats line 0 as the
header (titles become `"X"` and `"10"`) and yields exactly the single
row `{category := "Y", metric1 := 5, metric2 := 15}`, produced via the
column-shift path (field 1 is the category, fields 2 and 3 the metrics). -/
theorem parseCSV_legacy_amended :
    parseCSV ",X,10,20\n,Y,5,15" = ⟨"X", "10", [⟨"Y", 5, 15⟩]⟩ ∧
    headerIndex (linesOf ",X,10,20\n,Y,5,15") = 0 ∧
    rowFields ((linesOf ",X,10,20\n,Y,5,15").getD 1 []) =
      (['Y'], some ['5'], some ['1', '5']) := by
  decide

/-- C2 counterexample: in `"H1,H2,H3\nX,,5"` the row `X,,5` has an empty
first metric field — which does not parse as a number after
percent-stripping — and a valid second metric, yet the row is KEPT with
`metric1` silently set to 0, contradicting the claim that such a row is
discarded entirely. -/
theorem parseCSV_emptyMetric_counterexample :
    parseCSV "H1,H2,H3\nX,,5" = ⟨"H2", "H3", [⟨"X", 0, 5⟩]⟩ ∧
    (rowFields ((linesOf "H1,H2,H3\nX,,5").getD 1 [])).2.1 = some [] ∧
    jsParseFloatCore (stripFirstPct []) = none := by
  decide

end CsvTheorems

/-- A metric field is acceptable to `parseCSV`'s data loop: it is missing
(JS `undefined`), or empty after percent-stripping (both default to the
string `"0"`), or it parses as a number after percent-stripping. -/
def FieldOk : Option (List Char) → Prop
  | none => True
  | some cs => stripFirstPct cs = [] ∨ jsParseFloatCore (stripFirstPct cs) ≠ none

instance : (o : Option (List Char)) → Decidable (FieldOk o)
  | none => isTrue trivial
  | some cs =>
    inferInstanceAs (Decidable (stripFirstPct cs = [] ∨ jsParseFloatCore (stripFirstPct cs) ≠ none))

section CsvTheoremsTwo

attribute [local semireducible] Rat.add Rat.mul Rat.inv Rat.sub Rat.ofScientific

/-- The defaulted metric string parses as a number exactly when the field
is missing, empty after percent-stripping, or itself numeric: the
literal `"0"` substituted for falsy fields always parses. -/
theorem metric_parse_iff (o : Option (List Char)) :
    jsParseFloatCore (metricChars o) ≠ none ↔ FieldOk o := by
  cases o with
  | none =>
    have h0 : jsParseFloatCore (metricChars none) = some 0 := by decide
    simp [FieldOk, h0]
  | some cs =>
    by_cases h : stripFirstPct cs = []
    · have hm : metricChars (some cs) = ['0'] := by simp [metricChars, h]
      have h0 : jsParseFloatCore ['0'] = some 0 := by decide
      rw [hm]
      simp [FieldOk, h, h0]
    · have hm : metricChars (some cs) = stripFirstPct cs := by simp [metricChars, h]
      rw [hm]
      simp [FieldOk, h]

/-- C2 amended: the data rows of `parseCSV` are exactly the post-header
lines surviving the row filter, and a row with a non-empty category is
kept iff each metric field is missing, empty after percent-stripping
(in which case it silently defaults to 0), or parses as a number after
percent-stripping.  A row with a malformed non-empty metric is
discarded; an empty or missing metric does NOT discard the row. -/
theorem parseCSV_row_keep_amended :
    (∀ csv cd, parseCSVE csv = some cd →
      cd.data = ((linesOf csv).drop (headerIndex (linesOf csv) + 1)).filterMap processRow) ∧
    (∀ line, (rowFields line).1 ≠ [] →
      ((processRow line).isSome ↔ FieldOk (rowFields line).2.1 ∧ FieldOk (rowFields line).2.2)) := by
  constructor
  · intro csv cd hcd
    unfold parseCSVE at hcd
    by_cases h : (linesOf csv).length = 0
    · rw [if_pos h] at hcd
      have hnil : linesOf csv = [] := List.length_eq_zero.mp h
      cases hcd
      simp [defaultChart, hnil]
    · rw [if_neg h] at hcd
      cases hget : (linesOf csv).get? (headerIndex (linesOf csv)) with
      | none => rw [hget] at hcd; cases hcd
      | some hline => rw [hget] at hcd; cases hcd; rfl
  · intro line hcat
    unfold processRow
    rw [if_neg hcat]
    rw [← metric_parse_iff (rowFields line).2.1, ← metric_parse_iff (rowFields line).2.2]
    cases h1 : jsParseFloatCore (metricChars (rowFields line).2.1) with
    | none => simp [h1]
    | some a =>
      cases h2 : jsParseFloatCore (metricChars (rowFields line).2.2) with
      | none => simp [h1, h2]
      | some b => simp [h1, h2]

/-- C2 witness: on `"H1,H2,H3\nX,1,2"` the single data row survives the
filter, and the row `X,,5` (empty first metric, valid second) is kept. -/
theorem parseCSV_row_keep_amended_witness :
    (⟨"H2", "H3", [⟨"X", 1, 2⟩]⟩ : ChartData).data =
      ((linesOf "H1,H2,H3\nX,1,2").drop
        (headerIndex (linesOf "H1,H2,H3\nX,1,2") + 1)).filterMap processRow ∧
    (processRow ['X', ',', ',', '5']).isSome := by
  constructor
  · exact parseCSV_row_keep_amended.1 "H1,H2,H3\nX,1,2" _ (by decide)
  · exact (parseCSV_row_keep_amended.2 ['X', ',', ',', '5'] (by decide)).mpr
      ⟨by decide, by decide⟩

end CsvTheoremsTwo

/- ### Section 4: the color palette generator (`src/types.ts`)

`generateScale` delegates to the d3-color and d3-scale libraries.  Those
primitives are modelled here over ℚ from their exact rational semantics:
hex-literal color parsing (the format exercised by this repository; the
other CSS color syntaxes accepted by `d3.color` are not modelled),
RGB↔HSL conversion, `formatHex` rounding, and `d3.scaleLinear`.  A JS
`NaN` hue or saturation (achromatic colors) is modelled as `none`. -/

/-- An sRGB color with rational channel values on the 0..255 scale. -/
structure RGB where
  r : ℚ
  g : ℚ
  b : ℚ
deriving DecidableEq, Repr

/-- A d3 HSL triple; `none` for hue or saturation models the JS `NaN`
that d3 produces for achromatic colors. -/
structure JsHsl where
  h : Option ℚ
  s : Option ℚ
  l : ℚ
deriving DecidableEq, Repr

/-- Value of one hexadecimal digit character (either case). -/
def hexDigitVal (c : Char) : Option ℕ :=
  if '0' ≤ c ∧ c ≤ '9' then some (c.toNat - 48)
  else if 'a' ≤ c ∧ c ≤ 'f' then some (c.toNat - 87)
  else if 'A' ≤ c ∧ c ≤ 'F' then some (c.toNat - 55)
  else none

/-- Hex-literal subset of `d3.color`: `#rgb`, `#rgba`, `#rrggbb` and
`#rrggbbaa` (alpha ignored, as `formatHex` drops it); any other string
is unparseable (`none`).  Named colors and functional syntaxes are not
modelled; no input in this repository uses them. -/
def d3ColorHex (s : String) : Option RGB :=
  match s.toList with
  | '#' :: rest =>
    match rest.mapM hexDigitVal with
    | none => none
    | some ds =>
      match ds with
      | [r, g, b] => some ⟨17 * r, 17 * g, 17 * b⟩
      | [r, g, b, _] => some ⟨17 * r, 17 * g, 17 * b⟩
      | [r1, r2, g1, g2, b1, b2] => some ⟨16 * r1 + r2, 16 * g1 + g2, 16 * b1 + b2⟩
      | [r1, r2, g1, g2, b1, b2, _, _] => some ⟨16 * r1 + r2, 16 * g1 + g2, 16 * b1 + b2⟩
      | _ => none
  | _ => none

/-- RGB→HSL conversion of d3-color (`hslConvert`): channels scaled to
0..1; hue measured in degrees; hue (and, for extreme lightness,
saturation) is JS `NaN` — here `none` — when the color is achromatic. -/
def rgbToHsl (c : RGB) : JsHsl :=
  let r := c.r / 255
  let g := c.g / 255
  let b := c.b / 255
  let mn := min r (min g b)
  let mx := max r (max g b)
  let d := mx - mn
  let l := (mx + mn) / 2
  if d ≠ 0 then
    let h0 : ℚ :=
      if r = mx then (g - b) / d + (if g < b then 6 else 0)
      else if g = mx then (b - r) / d + 2
      else (r - g) / d + 4
    let s := d / (if l < 1 / 2 then mx + mn else 2 - mx - mn)
    ⟨some (h0 * 60), some s, l⟩
  else
    ⟨none, if 0 < l ∧ l < 1 then some 0 else none, l⟩

/-- Truncating integer part of a rational (JS division semantics). -/
def ratTrunc (q : ℚ) : ℤ := if 0 ≤ q then ⌊q⌋ else ⌈q⌉

/-- JS remainder `x % 360` (sign follows the dividend). -/
def jsMod360 (x : ℚ) : ℚ := x - 360 * (ratTrunc (x / 360) : ℚ)

/-- HSL→RGB conversion of d3-color (`Hsl.prototype.rgb` plus the
`hsl2rgb` channel helper).  A JS `NaN` hue or saturation forces
saturation 0, under which every channel evaluates to `l * 255`
regardless of the hue branch taken, so the `NaN` hue is represented by
an arbitrary real branch (0) without changing the result. -/
def hslToRgb (h? s? : Option ℚ) (l : ℚ) : RGB :=
  let hraw := h?.getD 0
  let h := jsMod360 hraw + (if hraw < 0 then 360 else 0)
  let s : ℚ := match h?, s? with
    | some _, some sv => sv
    | _, _ => 0
  let m2 := l + (if l < 1 / 2 then l else 1 - l) * s
  let m1 := 2 * l - m2
  let chan := fun (hh : ℚ) =>
    (if hh < 60 then m1 + (m2 - m1) * hh / 60
     else if hh < 180 then m2
     else if hh < 240 then m1 + (m2 - m1) * (240 - hh) / 60
     else m1) * 255
  ⟨chan (if 240 ≤ h then h - 240 else h + 120), chan h,
    chan (if h < 120 then h + 240 else h - 120)⟩

/-- JS `Math.round`: round half toward positive infinity. -/
def jsRound (x : ℚ) : ℤ := ⌊x + 1 / 2⌋

/-- Channel clamping of d3's hex formatter:
`Math.max(0, Math.min(255, Math.round(value)))`. -/
def clampByte (x : ℚ) : ℕ := (max 0 (min 255 (jsRound x))).toNat

/-- Two lowercase hex digits of a byte. -/
def byteHex (n : ℕ) : List Char :=
  let hexChar := fun (k : ℕ) => if k < 10 then Char.ofNat (48 + k) else Char.ofNat (87 + k)
  [hexChar (n / 16), hexChar (n % 16)]

/-- d3-color `formatHex`: `#` followed by the three clamped, rounded,
lowercase hex channel bytes. -/
def formatHex (c : RGB) : String :=
  String.mk ('#' :: (byteHex (clampByte c.r) ++ byteHex (clampByte c.g) ++ byteHex (clampByte c.b)))

/-- d3 `scaleLinear().domain([d0, d1]).range([r0, r1])` applied to `x`:
affine interpolation; a degenerate domain maps every input to the
midpoint of the range (d3's `normalize` yields the constant 1/2). -/
def linearScale (d0 d1 r0 r1 x : ℚ) : ℚ :=
  if d1 = d0 then r0 + (r1 - r0) * (1 / 2)
  else r0 + (r1 - r0) * ((x - d0) / (d1 - d0))

/-- Function `generateScale` from `src/types.ts`: parse the base color (returning
`steps` copies of the input when unparseable), then produce `steps`
colors holding hue and saturation fixed while lightness follows the
linear scale with domain `[0, steps-1]` and range `[0.55, 0.2]`. -/
def generateScale (baseColor : String) (steps : ℕ) : List String :=
  match d3ColorHex baseColor with
  | none => List.replicate steps baseColor
  | some c =>
    let hsl := rgbToHsl c
    (List.range steps).map fun (i : ℕ) =>
      formatHex (hslToRgb hsl.h hsl.s
        (linearScale 0 ((steps : ℚ) - 1) (11 / 20) (1 / 5) (i : ℚ)))

/- ### Section 5: theorems about the palette generator -/

section ColorTheorems

attribute [local semireducible] Rat.add Rat.mul Rat.inv Rat.sub Rat.ofScientific

/-- C6: for every parseable base color, `generateScale base 5` returns
5 colors, each the hex image of an HSL color sharing the base's hue and
saturation exactly, with lightness `0.55 - 0.35·i/4` at index `i`
(linearly interpolated from 0.55 down to 0.20), a strictly decreasing
sequence. -/
theorem generateScale_parseable_spec :
    ∀ base c, d3ColorHex base = some c →
      (generateScale base 5).length = 5 ∧
      generateScale base 5 = (List.range 5).map (fun (i : ℕ) =>
        formatHex (hslToRgb (rgbToHsl c).h (rgbToHsl c).s
          (11 / 20 - 7 / 80 * (i : ℚ)))) ∧
      (∀ i j : ℕ, i < j → j < 5 →
        (11 / 20 - 7 / 80 * (j : ℚ)) < 11 / 20 - 7 / 80 * (i : ℚ)) := by
  intro base c h
  refine ⟨?_, ?_, ?_⟩
  · unfold generateScale
    rw [h]
    simp
  · unfold generateScale
    rw [h]
    refine List.map_congr_left ?_
    intro i _
    have h40 : (((5 : ℕ) : ℚ) - 1) ≠ 0 := by push_cast; norm_num
    have hl : linearScale 0 (((5 : ℕ) : ℚ) - 1) (11 / 20) (1 / 5) (i : ℚ) =
        11 / 20 - 7 / 80 * (i : ℚ) := by
      unfold linearScale
      rw [if_neg h40]
      push_cast
      ring
    rw [hl]
  · intro i j hij hj5
    have hcast : (i : ℚ) < (j : ℚ) := by exact_mod_cast hij
    have := mul_lt_mul_of_pos_left hcast (by norm_num : (0 : ℚ) < 7 / 80)
    linarith

/-- C6 witness: the palette of `"#4F5870"` (rgb 79,88,112) matches the
fixed-hue/saturation formula and evaluates to five concrete hex colors,
with the base color itself reproduced at index 2. -/
theorem generateScale_parseable_witness :
    generateScale "#4F5870" 5 = (List.range 5).map (fun (i : ℕ) =>
      formatHex (hslToRgb (rgbToHsl ⟨79, 88, 112⟩).h (rgbToHsl ⟨79, 88, 112⟩).s
        (11 / 20 - 7 / 80 * (i : ℚ)))) ∧
    generateScale "#4F5870" 5 =
      ["#7883a0", "#626d8a", "#4f5870", "#3d4456", "#2a2f3c"] := by
  exact ⟨(generateScale_parseable_spec "#4F5870" ⟨79, 88, 112⟩ (by decide)).2.1, by decide⟩

/-- C7: for every unparseable base color string and every step count,
`generateScale` returns that many copies of the input string unchanged. -/
theorem generateScale_unparseable_id :
    ∀ (s : String) (steps : ℕ), d3ColorHex s = none →
      generateScale s steps = List.replicate steps s := by
  intro s steps h
  unfold generateScale
  rw [h]

/-- C7 witness: `generateScale "not-a-color" 3` is three copies of the
input. -/
theorem generateScale_unparseable_witness :
    generateScale "not-a-color" 3 = ["not-a-color", "not-a-color", "not-a-color"] := by
  rw [generateScale_unparseable_id "not-a-color" 3 (by decide)]
  rfl

end ColorTheorems

/- ### Section 6: the label-fitting font-size heuristic
(`src/unnamed/part_000`, lines 101–116) -/

/-- Name-label font size of `BubbleChart`: start at `min(r/4.5, 11)`,
reduce (for non-empty names) to at most `r * sqrt(2.8 / charCount)`,
then floor at 6px. -/
noncomputable def nameFontSize (r : ℝ) (name : String) : ℝ :=
  let charCount := name.length
  let f0 : ℝ := min (r / 4.5) 11
  let f1 : ℝ :=
    if 0 < charCount then min f0 (r * Real.sqrt (2.8 / (charCount : ℝ))) else f0
  max f1 6

/-- C3 counterexample: for the circle radius `r = 9` and the non-empty
name `"A"`, the selected font size (6, forced by the legibility floor)
strictly exceeds `min(r/4.5, 11) = 2`, so the claimed upper bound fails. -/
theorem nameFontSize_floor_counterexample :
    min ((9 : ℝ) / 4.5) 11 < nameFontSize 9 "A" := by
  have hmin : min ((9 : ℝ) / 4.5) 11 = 2 := by
    rw [show (9 : ℝ) / 4.5 = 2 by norm_num]
    exact min_eq_left (by norm_num)
  rw [hmin]
  dsimp only [nameFontSize]
  exact lt_of_lt_of_le (by norm_num) (le_max_right _ _)

/-- C3 amended: for every radius `r > 0` and non-empty name, the selected
font size lies between the 6px legibility floor and
`max(min(r/4.5, 11), 6)` — the claimed cap `min(r/4.5, 11)` holds except
that the floor may override it when `r < 27`. -/
theorem nameFontSize_bounds (r : ℝ) (name : String) (hr : 0 < r) (hname : name ≠ "") :
    6 ≤ nameFontSize r name ∧ nameFontSize r name ≤ max (min (r / 4.5) 11) 6 := by
  constructor
  · dsimp only [nameFontSize]
    exact le_max_right _ _
  · dsimp only [nameFontSize]
    refine max_le_max ?_ (le_refl 6)
    split_ifs with h
    · exact min_le_left _ _
    · exact le_refl _

/-- C3 witness: the amended bounds at `r = 45`, name `"AB"`. -/
theorem nameFontSize_bounds_witness :
    6 ≤ nameFontSize 45 "AB" ∧ nameFontSize 45 "AB" ≤ max (min ((45 : ℝ) / 4.5) 11) 6 :=
  nameFontSize_bounds 45 "AB" (by norm_num) (by decide)

/- ### Section 7: the greedy word-wrap
(`src/unnamed/part_000`, lines 89–166) -/

/-- One rendered `tspan` of the wrapped name label: vertical offset and
current text. -/
structure Span where
  y : ℝ
  text : String

/-- JS `line.join(" ")`. -/
def joinWords : List String → String
  | [] => ""
  | [w] => w
  | w :: ws => w ++ " " ++ joinWords ws

/-- JS `name.split(/\s+/)` on a character list: split at every single
whitespace character. -/
def splitWsSingle : List Char → List (List Char)
  | [] => [[]]
  | c :: t =>
    if c.isWhitespace then [] :: splitWsSingle t
    else
      match splitWsSingle t with
      | [] => [[c]]
      | x :: xs => (c :: x) :: xs

/-- Collapse of interior empty tokens produced by a whitespace run: the
regex split keeps an empty token only at the ends. -/
def wsMiddle : List String → List String
  | [] => []
  | [last] => [last]
  | w :: rest => if w = "" then wsMiddle rest else w :: wsMiddle rest

/-- JS `name.split(/\s+/)`: maximal-run whitespace split; an empty token
survives only at the start (leading whitespace) or end (trailing). -/
def jsWsSplit (name : String) : List String :=
  match (splitWsSingle name.toList).map String.mk with
  | [] => []
  | [x] => [x]
  | x :: xs => x :: wsMiddle xs

/-- Usable label width at vertical offset `y` inside a circle of radius
`r` (`getWidthAtY` in the source): zero at or beyond `0.9·r`, otherwise
90% of the chord `2·sqrt(r² − y²)`. -/
noncomputable def getWidthAtY (r y : ℝ) : ℝ :=
  if r * 0.9 ≤ |y| then 0 else 2 * Real.sqrt (r * r - y * y) * 0.9

/-- Mutable state of the wrap loop: the current line's words, the current
`y`, the allowed width at that `y`, and the `tspan`s created so far (the
active `tspan` is the last one). -/
structure WrapState where
  line : List String
  currentY : ℝ
  allowedWidth : ℝ
  spans : List Span

/-- JS `tspan.text(t)` on the active (most recently created) `tspan`. -/
def setLastText : List Span → String → List Span
  | [], _ => []
  | [sp], t => [⟨sp.y, t⟩]
  | sp :: rest, t => sp :: setLastText rest t

/-- One iteration of the wrap loop: push the word, re-render the active
`tspan`; if the line now overflows AND holds more than one word, pop the
word back off, move down one line height, and create a new `tspan` only
while still above `0.9·r` (otherwise the new line is clipped and the
active `tspan` stays the old one). -/
noncomputable def wrapStep (measure : String → ℝ) (r lineHeight : ℝ)
    (s : WrapState) (word : String) : WrapState :=
  let line' := s.line ++ [word]
  if measure (joinWords line') > s.allowedWidth ∧ 1 < line'.length then
    let spans' := setLastText s.spans (joinWords s.line)
    let y' := s.currentY + lineHeight
    let aw' := getWidthAtY r y'
    if y' < r * 0.9 then ⟨[word], y', aw', spans' ++ [⟨y', word⟩]⟩
    else ⟨[word], y', aw', spans'⟩
  else ⟨line', s.currentY, s.allowedWidth, setLastText s.spans (joinWords line')⟩

/-- The whole wrap loop over a word list: initial `tspan` at
`y = 0.1·r` with empty text, then fold `wrapStep`. -/
noncomputable def wrapWords (measure : String → ℝ) (r fontSize : ℝ)
    (words : List String) : List Span :=
  (words.foldl (wrapStep measure r (fontSize * 1.1))
    ⟨[], r * 0.1, getWidthAtY r (r * 0.1), [⟨r * 0.1, ""⟩]⟩).spans

/-- The name-label pipeline of `BubbleChart`: split the name on
whitespace, compute the heuristic font size, wrap. `measure` stands for
the environment-supplied `getComputedTextLength`. -/
noncomputable def wrapName (measure : String → ℝ) (r : ℝ) (name : String) : List Span :=
  wrapWords measure r (nameFontSize r name) (jsWsSplit name)

/-- Invariant of the wrap loop: every `tspan` sits strictly above
`0.9·r` and shows a space-join of whole words of the label, and the
pending line consists of whole words of the label. -/
def WrapInv (r : ℝ) (words : List String) (s : WrapState) : Prop :=
  (∀ sp ∈ s.spans, sp.y < r * 0.9 ∧
    ∃ l : List String, (∀ w ∈ l, w ∈ words) ∧ sp.text = joinWords l) ∧
  (∀ w ∈ s.line, w ∈ words)

/-- Lemma: `setLastText` only rewrites the active `tspan`'s text: every
resulting `tspan` keeps the offset of one of the old `tspan`s, and
either is an old `tspan` or shows the new text. -/
theorem setLastText_spec (spans : List Span) (t : String) :
    ∀ sp ∈ setLastText spans t,
      (∃ sp0 ∈ spans, sp.y = sp0.y) ∧ (sp ∈ spans ∨ sp.text = t) := by
  induction spans with
  | nil => intro sp h; cases h
  | cons sp0 rest ih =>
    intro sp hsp
    cases rest with
    | nil =>
      simp only [setLastText, List.mem_singleton] at hsp
      subst hsp
      exact ⟨⟨sp0, by simp, rfl⟩, Or.inr rfl⟩
    | cons sp1 rest' =>
      simp only [setLastText, List.mem_cons] at hsp
      rcases hsp with rfl | hsp
      · exact ⟨⟨sp, by simp, rfl⟩, Or.inl (by simp)⟩
      · rcases ih sp hsp with ⟨⟨spo, ho, hy⟩, hor⟩
        refine ⟨⟨spo, by simp [ho], hy⟩, ?_⟩
        rcases hor with hmem | htext
        · exact Or.inl (by simp [hmem])
        · exact Or.inr htext

/-- One wrap iteration preserves the invariant. -/
theorem wrapStep_inv (measure : String → ℝ) (r lh : ℝ) (words : List String)
    (word : String) (hw : word ∈ words) (s : WrapState) (hs : WrapInv r words s) :
    WrapInv r words (wrapStep measure r lh s word) := by
  obtain ⟨hspans, hline⟩ := hs
  have hline' : ∀ w ∈ s.line ++ [word], w ∈ words := by
    intro w hwmem
    rcases List.mem_append.mp hwmem with h | h
    · exact hline w h
    · simpa using (List.mem_singleton.mp h) ▸ hw
  have hsetJoin : ∀ (t : List String), (∀ w ∈ t, w ∈ words) →
      ∀ sp ∈ setLastText s.spans (joinWords t), sp.y < r * 0.9 ∧
        ∃ l : List String, (∀ w ∈ l, w ∈ words) ∧ sp.text = joinWords l := by
    intro t ht sp hsp
    rcases setLastText_spec s.spans (joinWords t) sp hsp with ⟨⟨sp0, h0, hy⟩, hor⟩
    refine ⟨hy ▸ (hspans sp0 h0).1, ?_⟩
    rcases hor with hmem | htext
    · exact (hspans sp hmem).2
    · exact ⟨t, ht, htext⟩
  have hsingle : ∀ w ∈ [word], w ∈ words := by
    intro w hwmem
    rw [List.mem_singleton.mp hwmem]
    exact hw
  unfold wrapStep
  dsimp only
  split_ifs with hcond hclip
  · refine ⟨?_, hsingle⟩
    intro sp hsp
    rcases List.mem_append.mp hsp with h | h
    · exact hsetJoin s.line hline sp h
    · rcases List.mem_singleton.mp h with rfl
      exact ⟨hclip, [word], hsingle, rfl⟩
  · exact ⟨fun sp hsp => hsetJoin s.line hline sp hsp, hsingle⟩
  · exact ⟨fun sp hsp => hsetJoin (s.line ++ [word]) hline' sp hsp, hline'⟩

/-- The wrap fold preserves the invariant. -/
theorem wrapFold_inv (measure : String → ℝ) (r lh : ℝ) (words : List String) :
    ∀ (ws : List String), (∀ w ∈ ws, w ∈ words) →
      ∀ s : WrapState, WrapInv r words s →
        WrapInv r words (ws.foldl (wrapStep measure r lh) s) := by
  intro ws
  induction ws with
  | nil => intro _ s hs; simpa using hs
  | cons w t ih =>
    intro hsub s hs
    simp only [List.foldl_cons]
    exact ih (fun x hx => hsub x (by simp [hx])) _
      (wrapStep_inv measure r lh words w (hsub w (by simp)) s hs)

/-- C10: the greedy word-wrap never breaks inside a word — every rendered
`tspan` shows a space-join of whole words of the name, so a line whose
single word is wider than the chord stays (a wrap requires more than one
word on the line: with an empty pending line the step keeps the word
unconditionally, whatever `measure` says) — and every rendered `tspan`
sits strictly above the `0.9·r` clipping offset. -/
theorem wrapName_word_integrity (measure : String → ℝ) (r : ℝ) (name : String)
    (hr : 0 < r) :
    (∀ sp ∈ wrapName measure r name, sp.y < r * 0.9 ∧
      ∃ l : List String, (∀ w ∈ l, w ∈ jsWsSplit name) ∧ sp.text = joinWords l) ∧
    (∀ (lineHeight : ℝ) (s : WrapState) (word : String), s.line = [] →
      wrapStep measure r lineHeight s word =
        ⟨[word], s.currentY, s.allowedWidth, setLastText s.spans word⟩) := by
  constructor
  · have hinit : WrapInv r (jsWsSplit name)
        ⟨[], r * 0.1, getWidthAtY r (r * 0.1), [⟨r * 0.1, ""⟩]⟩ := by
      refine ⟨?_, by intro w hwmem; cases hwmem⟩
      intro sp hsp
      rw [List.mem_singleton.mp hsp]
      refine ⟨by show r * 0.1 < r * 0.9; nlinarith, [], ?_, rfl⟩
      intro w hwmem
      exact absurd hwmem (List.not_mem_nil w)
    have hfin := wrapFold_inv measure r (nameFontSize r name * 1.1) (jsWsSplit name)
      (jsWsSplit name) (fun w hwmem => hwmem) _ hinit
    exact hfin.1
  · intro lh s word hempty
    unfold wrapStep
    rw [hempty]
    have hcond : ¬(measure (joinWords ([] ++ [word])) > s.allowedWidth ∧
        1 < ([] ++ [word] : List String).length) := by
      rintro ⟨-, hlen⟩
      simp at hlen
    rw [if_neg hcond]
    rfl

/-- C10 witness: the wrap guarantees at `measure ≡ 0`, `r = 1`,
name `"a b"`. -/
theorem wrapName_word_integrity_witness :
    (∀ sp ∈ wrapName (fun _ => 0) 1 "a b", sp.y < 1 * 0.9 ∧
      ∃ l : List String, (∀ w ∈ l, w ∈ jsWsSplit "a b") ∧ sp.text = joinWords l) ∧
    (∀ (lineHeight : ℝ) (s : WrapState) (word : String), s.line = [] →
      wrapStep (fun _ => 0) 1 lineHeight s word =
        ⟨[word], s.currentY, s.allowedWidth, setLastText s.spans word⟩) :=
  wrapName_word_integrity (fun _ => 0) 1 "a b" (by norm_num)

/- ### Section 8: the bubble layout
(`src/unnamed/part_000`, lines 24–33)

The component configures `d3.pack().size([width, height]).padding(10)`
over a one-level hierarchy summed by value.  `d3.pack` is an external
library whose code is not part of this repository, so the layout is
modelled from the spec, §4.3: one leaf circle per row; leaf radius
determined by area ∝ value (hence base radius `sqrt(value)`), uniformly
rescaled so the packed arrangement fits the `width × height` box; rows
placed deterministically in input order with `padding` separation; and
the whole computation a function of rows, dimensions and padding only.
The ambient sources of nondeterminism available to a browser render — a
random stream and a clock — are passed explicitly so that independence
from them is a statement, not a convention. -/

/-- Ambient browser environment available to a render: a stream of
random draws and the current time.  The layout must not consult it. -/
structure RenderEnv where
  random : ℕ → ℚ
  nowMillis : ℕ

/-- One input row of `BubbleChart`. -/
structure Row where
  name : String
  value : ℝ

/-- One positioned leaf circle of the layout. -/
structure Leaf where
  name : String
  value : ℝ
  x : ℝ
  y : ℝ
  r : ℝ

/-- Modelled from the spec: base leaf radius before rescaling — area is
proportional to value, so the radius is `sqrt(value)` (d3's
`defaultRadius`). -/
noncomputable def leafBaseRadius (v : ℝ) : ℝ := Real.sqrt v

/-- Modelled from the spec: total extent of the sibling chain — the
diameters of all leaves plus `padding` between adjacent leaves. -/
noncomputable def chainExtent (p : ℝ) (rs : List ℝ) : ℝ :=
  (rs.map (fun t => 2 * t)).sum + p * ((rs.length : ℝ) - 1)

/-- Modelled from the spec: the uniform rescale factor fitting an
arrangement of enclosing radius `R` into the `w × h` box
(`min(w, h) / (2·R)` — d3's `translateChild` scale). -/
noncomputable def packScale (w h R : ℝ) : ℝ := min w h / (2 * R)

/-- Modelled from the spec: deterministic in-order placement of the leaf
circles along the chain, centred in the box and uniformly rescaled by
`k`; `x` is the running start offset of the next circle. -/
noncomputable def placeLeaves (w h k p R : ℝ) : ℝ → List Row → List Leaf
  | _, [] => []
  | x, row :: rest =>
    let r0 := leafBaseRadius row.value
    ⟨row.name, row.value, w / 2 + k * ((x + r0) - R), h / 2, k * r0⟩ ::
      placeLeaves w h k p R (x + 2 * r0 + p) rest

/-- Modelled from the spec: the layout engine — a function of the rows,
the dimensions and the padding alone; the environment argument is the
ambient randomness/clock, which the computation never reads. -/
noncomputable def bubbleLayout (env : RenderEnv) (rows : List Row) (w h p : ℝ) : List Leaf :=
  let rs := rows.map (fun row => leafBaseRadius row.value)
  let R := chainExtent p rs / 2
  let k := packScale w h R
  placeLeaves w h k p R 0 rows

/-- Leaf radii of the layout, in row order. -/
noncomputable def leafRadii (env : RenderEnv) (rows : List Row) (w h p : ℝ) : List ℝ :=
  (bubbleLayout env rows w h p).map (fun leaf => leaf.r)

/-- C8: the layout is deterministic — its output is independent of the
ambient environment (random stream, clock), so two invocations on
identical rows, width, height and padding produce identical leaf
positions and radii. -/
theorem bubbleLayout_env_independent :
    ∀ (env env' : RenderEnv) (rows : List Row) (w h p : ℝ),
      bubbleLayout env rows w h p = bubbleLayout env' rows w h p :=
  fun _ _ _ _ _ _ => rfl

/-- The radii of `placeLeaves` are `k` times the base radii, row by row. -/
theorem placeLeaves_radii (w h k p R : ℝ) :
    ∀ (rows : List Row) (x : ℝ),
      (placeLeaves w h k p R x rows).map (fun leaf => leaf.r) =
        rows.map (fun row => k * leafBaseRadius row.value) := by
  intro rows
  induction rows with
  | nil => intro x; rfl
  | cons row rest ih =>
    intro x
    simp only [placeLeaves, List.map_cons]
    exact congrArg _ (ih _)

/-- The radius list of the layout in closed form. -/
theorem leafRadii_eq (env : RenderEnv) (rows : List Row) (w h p : ℝ) :
    leafRadii env rows w h p = rows.map (fun row =>
      packScale w h (chainExtent p (rows.map (fun row2 => leafBaseRadius row2.value)) / 2) *
        leafBaseRadius row.value) := by
  unfold leafRadii bubbleLayout
  exact placeLeaves_radii _ _ _ _ _ rows 0

/-- C9: within one layout, a row with strictly larger (non-negative)
value receives a strictly larger leaf radius, all other inputs equal. -/
theorem bubbleLayout_radius_monotone :
    ∀ (env : RenderEnv) (rows : List Row) (w h p : ℝ) (i j : ℕ),
      i < rows.length → j < rows.length →
      0 ≤ (rows.getD i ⟨"", 0⟩).value →
      (rows.getD i ⟨"", 0⟩).value < (rows.getD j ⟨"", 0⟩).value →
      0 < min w h → 0 ≤ p →
      (leafRadii env rows w h p).getD i 0 < (leafRadii env rows w h p).getD j 0 := by
  intro env rows w h p i j hi hj hnn hlt hwh hp
  rw [List.getD_eq_getElem rows _ hi] at hnn hlt
  rw [List.getD_eq_getElem rows _ hj] at hlt
  set rs := rows.map (fun row2 => leafBaseRadius row2.value) with hrs
  set R := chainExtent p rs / 2 with hR
  set k := packScale w h R with hk
  have hradii : leafRadii env rows w h p =
      rows.map (fun row => k * leafBaseRadius row.value) := leafRadii_eq env rows w h p
  have hgi : (leafRadii env rows w h p).getD i 0 = k * leafBaseRadius (rows[i]).value := by
    rw [hradii, List.getD_eq_getElem _ _ (by simpa using hi), List.getElem_map]
  have hgj : (leafRadii env rows w h p).getD j 0 = k * leafBaseRadius (rows[j]).value := by
    rw [hradii, List.getD_eq_getElem _ _ (by simpa using hj), List.getElem_map]
  have hvj : 0 < (rows[j]).value := lt_of_le_of_lt hnn hlt
  have hsqj : 0 < leafBaseRadius (rows[j]).value := by
    unfold leafBaseRadius
    exact Real.sqrt_pos.mpr hvj
  have hnonneg : ∀ x ∈ rs.map (fun t => 2 * t), 0 ≤ x := by
    intro x hx
    obtain ⟨t, ht, rfl⟩ := List.mem_map.mp hx
    rw [hrs] at ht
    obtain ⟨row2, _, rfl⟩ := List.mem_map.mp ht
    unfold leafBaseRadius
    positivity
  have hmem : 2 * leafBaseRadius (rows[j]).value ∈ rs.map (fun t => 2 * t) := by
    refine List.mem_map_of_mem _ ?_
    rw [hrs]
    exact List.mem_map_of_mem _ (List.getElem_mem hj)
  have hsum : 2 * leafBaseRadius (rows[j]).value ≤ (rs.map (fun t => 2 * t)).sum :=
    List.single_le_sum hnonneg _ hmem
  have hlen : 1 ≤ rs.length := by
    rw [hrs, List.length_map]
    omega
  have hpad : 0 ≤ p * ((rs.length : ℝ) - 1) := by
    have : (1 : ℝ) ≤ (rs.length : ℝ) := by exact_mod_cast hlen
    have h1 : (0 : ℝ) ≤ (rs.length : ℝ) - 1 := by linarith
    exact mul_nonneg hp h1
  have hext : 0 < chainExtent p rs := by
    unfold chainExtent
    linarith
  have hRpos : 0 < R := by
    rw [hR]
    linarith
  have hkpos : 0 < k := by
    rw [hk]
    unfold packScale
    exact div_pos hwh (by linarith)
  rw [hgi, hgj]
  refine mul_lt_mul_of_pos_left ?_ hkpos
  unfold leafBaseRadius
  exact Real.sqrt_lt_sqrt hnn hlt

/-- C9 witness: with rows `A ↦ 1`, `B ↦ 4` in a 400×400 box with
padding 10, the leaf radius of `B` strictly exceeds that of `A`. -/
theorem bubbleLayout_radius_monotone_witness :
    (leafRadii ⟨fun _ => 0, 0⟩ [⟨"A", 1⟩, ⟨"B", 4⟩] 400 400 10).getD 0 0 <
      (leafRadii ⟨fun _ => 0, 0⟩ [⟨"A", 1⟩, ⟨"B", 4⟩] 400 400 10).getD 1 0 := by
  refine bubbleLayout_radius_monotone ⟨fun _ => 0, 0⟩ [⟨"A", 1⟩, ⟨"B", 4⟩] 400 400 10 0 1
    (by norm_num) (by norm_num) ?_ ?_ (by norm_num) (by norm_num)
  · show (0 : ℝ) ≤ 1
    norm_num
  · show (1 : ℝ) < 4
    norm_num
